import Mathlib

/-!
Shallow embedding of the twitterScrapper repository's core logic, together
with theorems settling the frozen claims about its specification.

Source files embedded here:
- src/src/models.py      (Tweet, Thread and their derived queries)
- src/src/extractor.py   (parse_api_tweet, filter_tweets_by_date,
                          group_tweets_into_threads)
- src/src/downloader.py  (VideoDownloader.download_video extension
                          normalization, process_tweet, process_thread and
                          the batch loop of scraper.py)
- src/src/transcriber.py (OpenAITranscriber.transcribe size check and
                          primary/fallback model retry control flow)

Modelling conventions:
- Python `datetime` objects are modelled by `PyDateTime`: a wall-clock value
  `naive : Int` plus an optional UTC offset `tz : Option Int` (present exactly
  when the datetime is timezone-aware).  Python compares two naive datetimes
  by wall clock and two aware datetimes by instant (wall clock minus offset);
  comparing naive with aware raises.  The embedding totalizes this with
  `PyDateTime.key`, which treats a missing offset as zero; the code under
  study only ever compares dates of the same kind.
- Python truthiness of an `Optional[str]` is `pyTruthy`: `None` and the empty
  string are falsy.
- External collaborators (dateutil's parse, yt-dlp, the OpenAI client) are
  passed in as function parameters; an exception raised by a collaborator is
  modelled by a `none` / `Except.error` outcome.
- File writes are modelled by threading an explicit append-only log of the
  paths written.
-/

namespace TS

/-- Model of a Python `datetime`: wall-clock value plus optional UTC offset. -/
structure PyDateTime where
  naive : Int
  tz : Option Int
deriving Repr, DecidableEq

/-- Comparison key for Python datetime ordering (see the header comment). -/
def PyDateTime.key (d : PyDateTime) : Int := d.naive - d.tz.getD 0

/-- Model of `d.replace(tzinfo=None)`: drop the offset, keep the wall clock. -/
def PyDateTime.replaceTzNone (d : PyDateTime) : PyDateTime := ⟨d.naive, none⟩

/-- Python truthiness of an `Optional[str]`: `None` and `""` are falsy. -/
def pyTruthy : Option String → Bool
  | some s => s != ""
  | none => false

/-- models.py `Tweet` dataclass.  The `transcript` field (never touched by
any function embedded here) is omitted. -/
structure Tweet where
  id : String
  author : String
  text : String
  date : PyDateTime
  url : String
  video_url : Option String := none
  video_file : Option String := none
  is_retweet : Bool := false
  is_reply : Bool := false
  reply_to_id : Option String := none
deriving Repr, DecidableEq

/-- models.py `Tweet.get_filename_prefix`: the `%Y_%m_%d`-formatted date
followed by the id.  The date formatting itself is opaque to every claim, so
it is modelled by printing the wall-clock value. -/
def Tweet.filename_stem (t : Tweet) : String :=
  toString t.date.naive ++ "_" ++ t.id

/-- models.py `Tweet.get_video_filename`. -/
def Tweet.get_video_filename (t : Tweet) : String :=
  t.filename_stem ++ "_video.mp4"

/-- models.py `Tweet.get_tweet_filename`. -/
def Tweet.get_tweet_filename (t : Tweet) : String :=
  t.filename_stem ++ "_twitt.json"

/-- models.py `Thread` dataclass (transcript field omitted, as for `Tweet`). -/
structure Thread where
  id : String
  author : String
  date : PyDateTime
  tweets : List Tweet := []
  video_url : Option String := none
  video_file : Option String := none
deriving Repr, DecidableEq

/-- models.py `Thread.get_filename_prefix` (same convention as for `Tweet`). -/
def Thread.filename_stem (th : Thread) : String :=
  toString th.date.naive ++ "_" ++ th.id

/-- models.py `Thread.get_video_filename`. -/
def Thread.get_video_filename (th : Thread) : String :=
  th.filename_stem ++ "_video.mp4"

/-- models.py `Thread.get_thread_filename`. -/
def Thread.get_thread_filename (th : Thread) : String :=
  th.filename_stem ++ "_thread_twitt.json"

/-- models.py `Thread.has_video`: `self.video_url is not None or
any(t.video_url for t in self.tweets)`.  Note the asymmetry faithfully kept
from the source: the first disjunct tests `is not None` (so `Some ""` counts)
while the generator tests truthiness. -/
def Thread.has_video (th : Thread) : Bool :=
  th.video_url.isSome || th.tweets.any (fun t => pyTruthy t.video_url)

/-- models.py `Thread.get_first_video_url`: the thread's own field if truthy,
else the first member whose `video_url` is truthy, else `None`. -/
def Thread.get_first_video_url (th : Thread) : Option String :=
  if pyTruthy th.video_url then th.video_url
  else
    match th.tweets.find? (fun t => pyTruthy t.video_url) with
    | some t => t.video_url
    | none => none

/-! ### extractor.py -/

/-- Raw API payload for one tweet (`data : dict` in extractor.py).  Required
keys that may be absent are `Option`s; `none` models a missing key. -/
structure ApiTweet where
  id : Option String := none
  author : Option String := none
  text : Option String := none
  datetime : Option String := none
  url : Option String := none
  videoUrl : Option String := none
  isRetweet : Option Bool := none
  isReply : Option Bool := none
  replyToId : Option String := none
deriving Repr, DecidableEq

/-- extractor.py `parse_api_tweet`.  `dp` models `dateutil.parser.parse`
(`none` models a raised exception) and `now` models `datetime.now()`.  The
source wraps the whole body in `try/except` returning `None`, so a missing
required key or a date-parse exception both yield `none`. -/
def parse_api_tweet (dp : String → Option PyDateTime) (now : PyDateTime)
    (data : ApiTweet) : Option Tweet :=
  let dateR : Option PyDateTime :=
    match data.datetime with
    | some s => if s = "" then some now else dp s
    | none => some now
  match dateR, data.id, data.author, data.text, data.url with
  | some date, some i, some a, some tx, some u =>
      some { id := i, author := a, text := tx, date := date, url := u,
             video_url := data.videoUrl,
             is_retweet := data.isRetweet.getD false,
             is_reply := data.isReply.getD false,
             reply_to_id := data.replyToId }
  | _, _, _, _, _ => none

/-- extractor.py `filter_tweets_by_date`.  The source normalizes each tweet's
date with `replace(tzinfo=None)` when it is aware, then compares inclusively
against the (naive) bounds; the loop-and-append is a list filter.  `start_date`
and `end_date` are naive datetimes, i.e. bare wall-clock values. -/
def filter_tweets_by_date (tweets : List Tweet) (start_date end_date : Int) :
    List Tweet :=
  tweets.filter (fun t =>
    let tweet_date := if t.date.tz.isSome then t.date.replaceTzNone else t.date
    decide (start_date ≤ tweet_date.naive ∧ tweet_date.naive ≤ end_date))

/-- extractor.py `tweet_by_id` dict: `{t.id: t for t in tweets}`.  A Python
dict comprehension keeps the last binding for a duplicated key, hence the
lookup over the reversed list. -/
def tweet_by_id (tweets : List Tweet) (i : String) : Option Tweet :=
  tweets.reverse.find? (fun t => t.id == i)

/-- The membership test of the inner `for thread in threads` loop:
`thread.id == parent.id or parent.id in [t.id for t in thread.tweets]`. -/
def threadMatches (pid : String) (th : Thread) : Bool :=
  th.id == pid || (th.tweets.map (fun t => t.id)).contains pid

/-- The inner `for thread in threads: ... break` loop of
`group_tweets_into_threads`: append `tw` to the first thread matching `pid`
(only when `tw.id` is not yet assigned), leaving later threads untouched.
Returns the updated `(threads, in_thread)`. -/
def appendToFirst (pid : String) (tw : Tweet) :
    List Thread → List String → List Thread × List String
  | [], inT => ([], inT)
  | th :: rest, inT =>
    if threadMatches pid th then
      if inT.contains tw.id then (th :: rest, inT)
      else ({ th with tweets := th.tweets ++ [tw] } :: rest, inT ++ [tw.id])
    else
      let r := appendToFirst pid tw rest inT
      (th :: r.1, r.2)

/-- One iteration of the main loop of `group_tweets_into_threads` over the
state `(in_thread, threads)`. -/
def groupStep (byId : String → Option Tweet) (target_author : String)
    (st : List String × List Thread) (tweet : Tweet) :
    List String × List Thread :=
  if tweet.is_reply && pyTruthy tweet.reply_to_id then
    match byId (tweet.reply_to_id.getD "") with
    | some parent =>
      if parent.author = tweet.author ∧ tweet.author = target_author then
        let seeded : List String × List Thread :=
          if st.1.contains parent.id then st
          else (st.1 ++ [parent.id],
                st.2 ++ [{ id := parent.id, author := parent.author,
                           date := parent.date, tweets := [parent],
                           video_url := none, video_file := none }])
        let r := appendToFirst parent.id tweet seeded.2 seeded.1
        (r.2, r.1)
      else st
    | none => st
  else st

/-- Stable insertion used to model Python's stable `list.sort(key=...)`:
insert `t` before the first element with a strictly larger or equal key so
that elements with equal keys keep their original relative order. -/
def insertByDate (t : Tweet) : List Tweet → List Tweet
  | [] => [t]
  | x :: xs =>
    if t.date.key ≤ x.date.key then t :: x :: xs else x :: insertByDate t xs

/-- Model of `thread.tweets.sort(key=lambda t: t.date)`: a stable sort by the
datetime comparison key. -/
def sortByDate (l : List Tweet) : List Tweet := l.foldr insertByDate []

/-- The post-loop normalization of one thread: sort members by date, then
resolve `thread.video_url = thread.get_first_video_url()`. -/
def finalizeThread (th : Thread) : Thread :=
  let s : Thread := { th with tweets := sortByDate th.tweets }
  { s with video_url := s.get_first_video_url }

/-- The folded main-loop state of `group_tweets_into_threads`:
`(in_thread, threads)` after processing every tweet. -/
def groupState (tweets : List Tweet) (target_author : String) :
    List String × List Thread :=
  tweets.foldl (groupStep (tweet_by_id tweets) target_author) ([], [])

/-- extractor.py `group_tweets_into_threads`. -/
def group_tweets_into_threads (tweets : List Tweet) (target_author : String) :
    List Tweet × List Thread :=
  let st := groupState tweets target_author
  (tweets.filter (fun t => !(st.1.contains t.id)), st.2.map finalizeThread)

/-- All member tweets of a list of threads, in order. -/
def flatTweets (ths : List Thread) : List Tweet :=
  (ths.map (fun th => th.tweets)).flatten

/-- The date ordering by which thread members are sorted. -/
def dle (a b : Tweet) : Prop := a.date.key ≤ b.date.key

/-- The guard of the main loop of `group_tweets_into_threads` (lines 98-100
of extractor.py), i.e. the code's criterion for "this tweet is a thread
continuation".  It depends only on the tweet and the id index, not on the
loop state. -/
def isContinuationB (byId : String → Option Tweet) (target_author : String)
    (t : Tweet) : Bool :=
  (t.is_reply && pyTruthy t.reply_to_id) &&
    match byId (t.reply_to_id.getD "") with
    | some parent => decide (parent.author = t.author ∧ t.author = target_author)
    | none => false

/-- The claim's notion of a thread continuation, following the spec's words
("marked as a reply, parent identifier present in the index, and both it and
its resolved parent authored by the target author").  Kept separate from the
source-derived guard `isContinuationB` for the refinement comparison. -/
def isContinuationSpecB (byId : String → Option Tweet) (target_author : String)
    (t : Tweet) : Bool :=
  t.is_reply &&
    match t.reply_to_id with
    | some rid =>
      match byId rid with
      | some parent => decide (parent.author = target_author ∧ t.author = target_author)
      | none => false
    | none => false

/-! ### downloader.py -/

/-- Model of `os.path.basename`. -/
def basename (p : String) : String := (p.splitOn "/").getLastD ""

/-- The extension candidates probed by `download_video` (line 74). -/
def EXT_CANDIDATES : List String := ["mp4", "mkv", "webm", "mov"]

/-- The post-download loop of `VideoDownloader.download_video` (lines 73-85):
probe the candidate extensions in order against the file the external tool
actually produced (modelled by `produced`, the tool-chosen extension of the
single output file at the template stem); rename to `.mp4` when the found
extension differs.  Returns the final path and whether a rename happened, or
`none` when no candidate matches ("Downloaded file not found"). -/
def findDownloadedFile (stem produced : String) : List String → Option (String × Bool)
  | [] => none
  | ext :: rest =>
    if ext == produced then
      if ext != "mp4" then some (stem ++ ".mp4", true)
      else some (stem ++ ".mp4", false)
    else findDownloadedFile stem produced rest

/-- The extension-normalization result of `download_video` for a download
where the external tool produced one file `stem ++ "." ++ produced`. -/
def normalize_download (stem produced : String) : Option (String × Bool) :=
  findDownloadedFile stem produced EXT_CANDIDATES

/-- `VideoDownloader.save_tweet_json`: returns the sidecar path and appends
it to the write log. -/
def save_tweet_json (output_dir : String) (t : Tweet) (written : List String) :
    String × List String :=
  let p := output_dir ++ "/" ++ t.get_tweet_filename
  (p, written ++ [p])

/-- `VideoDownloader.save_thread_json`. -/
def save_thread_json (output_dir : String) (th : Thread) (written : List String) :
    String × List String :=
  let p := output_dir ++ "/" ++ th.get_thread_filename
  (p, written ++ [p])

/-- `VideoDownloader.download_tweet_video`.  `fetch url filename` models
`download_video` as a whole: `none` covers both the tool reporting
"no video found" and a raised exception, which `download_video` catches and
converts to `None` (lines 87-89).  The source's `if not tweet.video_url and
tweet.url` branch is vacuous — both branches make the identical call with
`tweet.url` — so the call is unconditional here. -/
def download_tweet_video (fetch : String → String → Option String) (t : Tweet) :
    Tweet × Bool :=
  match fetch t.url t.get_video_filename with
  | some p => ({ t with video_file := some (basename p) }, true)
  | none => (t, false)

/-- The member loop of `VideoDownloader.download_thread_video`: try each
member tweet (whose `video_url` or `url` is truthy) in sequence order until
one download succeeds. -/
def download_thread_video_go (fetch : String → String → Option String)
    (th : Thread) : List Tweet → Thread × Bool
  | [] => (th, false)
  | t :: rest =>
    if pyTruthy t.video_url || (t.url != "") then
      match fetch t.url th.get_video_filename with
      | some p => ({ th with video_file := some (basename p) }, true)
      | none => download_thread_video_go fetch th rest
    else download_thread_video_go fetch th rest

/-- `VideoDownloader.download_thread_video`. -/
def download_thread_video (fetch : String → String → Option String)
    (th : Thread) : Thread × Bool :=
  download_thread_video_go fetch th th.tweets

/-- The `(success, video_path, json_path)` triple returned by
`process_tweet` / `process_thread`. -/
structure ProcessResult where
  success : Bool
  video_path : Option String
  json_path : Option String
deriving Repr, DecidableEq

/-- `VideoDownloader.process_tweet`: attempt the video download, then write
the JSON sidecar unconditionally.  Returns the result triple, the (possibly
updated) tweet, and the write log. -/
def process_tweet (fetch : String → String → Option String) (output_dir : String)
    (t : Tweet) (written : List String) : ProcessResult × Tweet × List String :=
  let r := download_tweet_video fetch t
  let video_path : Option String :=
    if r.2 then some (output_dir ++ "/" ++ (r.1.video_file.getD "")) else none
  let sj := save_tweet_json output_dir r.1 written
  ({ success := video_path.isSome, video_path := video_path,
     json_path := some sj.1 }, r.1, sj.2)

/-- `VideoDownloader.process_thread`: attempt the video download only when
`has_video`, then write the JSON sidecar unconditionally. -/
def process_thread (fetch : String → String → Option String) (output_dir : String)
    (th : Thread) (written : List String) : ProcessResult × Thread × List String :=
  let r : Thread × Bool :=
    if th.has_video then download_thread_video fetch th else (th, false)
  let video_path : Option String :=
    if r.2 then some (output_dir ++ "/" ++ (r.1.video_file.getD "")) else none
  let sj := save_thread_json output_dir r.1 written
  ({ success := video_path.isSome, video_path := video_path,
     json_path := some sj.1 }, r.1, sj.2)

/-- The standalone-tweet processing loop of scraper.py (lines 235-253): items
with a truthy `video_url` go through `process_tweet`, the rest just get their
JSON saved.  One result per input item. -/
def processTweetsBatch (fetch : String → String → Option String)
    (output_dir : String) : List Tweet → List String → List ProcessResult × List String
  | [], written => ([], written)
  | t :: rest, written =>
    let step : ProcessResult × List String :=
      if pyTruthy t.video_url then
        let r := process_tweet fetch output_dir t written
        (r.1, r.2.2)
      else
        let sj := save_tweet_json output_dir t written
        ({ success := false, video_path := none, json_path := some sj.1 }, sj.2)
    let rs := processTweetsBatch fetch output_dir rest step.2
    (step.1 :: rs.1, rs.2)

/-! ### transcriber.py -/

/-- `OpenAITranscriber.MAX_FILE_SIZE` (25MB). -/
def MAX_FILE_SIZE : Nat := 25 * 1024 * 1024

/-- `OpenAITranscriber.FALLBACK_MODEL`. -/
def FALLBACK_MODEL : String := "whisper-1"

/-- `OpenAITranscriber.DEFAULT_BETTER_MODEL`. -/
def DEFAULT_BETTER_MODEL : String := "gpt-4o-mini-transcribe"

/-- ASCII lower-casing of one character (the fragment of Python's
`str.lower` relevant to the matched keywords). -/
def lowerChar (c : Char) : Char :=
  if c.isUpper then Char.ofNat (c.toNat + 32) else c

/-- Model of Python's `str.lower()`. -/
def pyLower (s : String) : String := String.mk (s.data.map lowerChar)

/-- Python's substring test on strings (the binary `in` operator). -/
def containsSub (hay needle : String) : Bool :=
  hay.data.tails.any (fun s => needle.data.isPrefixOf s)

/-- The error-text keyword match of `transcribe` (lines 397-400): the
lower-cased message must mention "model" together with one of the
model-unavailable markers. -/
def matchesModelUnavailable (e : String) : Bool :=
  let msg := pyLower e
  containsSub msg "model" &&
    (containsSub msg "not found" || containsSub msg "does not exist" ||
     containsSub msg "invalid")

/-- The errors `transcribe` can surface to its caller in the modelled
portion: the oversize `ValueError` or a service exception's message. -/
inductive TranscribeError where
  | tooLarge
  | service (msg : String)
deriving Repr, DecidableEq

/-- The size-check plus primary/fallback control flow of
`OpenAITranscriber.transcribe` (lines 364-404).  `svc` models one
`_create_transcription` call for a given model name (`Except.error` models a
raised exception); `upload_size` is the size of the upload file after the
optional cleanup.  The second component records the service calls made, in
order. -/
def transcribeFlow {α : Type} (svc : String → Except String α)
    (selected_model : String) (upload_size : Nat) :
    Except TranscribeError α × List String :=
  if upload_size > MAX_FILE_SIZE then (.error .tooLarge, [])
  else
    match svc selected_model with
    | .ok r => (.ok r, [selected_model])
    | .error e =>
      if selected_model ≠ FALLBACK_MODEL ∧ matchesModelUnavailable e then
        match svc FALLBACK_MODEL with
        | .ok r => (.ok r, [selected_model, FALLBACK_MODEL])
        | .error e2 => (.error (.service e2), [selected_model, FALLBACK_MODEL])
      else (.error (.service e), [selected_model])

/-! ### Concrete inputs used by counterexamples and witnesses -/

/-- Root post of a three-level same-author reply chain. -/
def chainRoot (d : Int) : Tweet :=
  { id := "r", author := "a", text := "root", date := ⟨d, none⟩, url := "u-r" }

/-- First-level reply of the chain (answers the root). -/
def chainReply1 (d : Int) : Tweet :=
  { id := "r1", author := "a", text := "first", date := ⟨d, none⟩, url := "u-r1",
    is_reply := true, reply_to_id := some "r" }

/-- Second-level reply of the chain (answers the first reply). -/
def chainReply2 (d : Int) : Tweet :=
  { id := "r2", author := "a", text := "second", date := ⟨d, none⟩, url := "u-r2",
    is_reply := true, reply_to_id := some "r1" }

/-- A batch member whose identifier is the empty string. -/
def emptyIdTweet : Tweet :=
  { id := "", author := "a", text := "anon", date := ⟨0, none⟩, url := "u-e" }

/-- A reply whose parent identifier is the empty string (which does occur in
the index when `emptyIdTweet` is in the batch). -/
def emptyParentReply : Tweet :=
  { id := "p", author := "a", text := "rep", date := ⟨1, none⟩, url := "u-p",
    is_reply := true, reply_to_id := some "" }

/-- A root post timestamped after its own reply. -/
def lateRoot : Tweet :=
  { id := "lr", author := "a", text := "late root", date := ⟨10, none⟩, url := "u-lr" }

/-- A reply timestamped before its parent `lateRoot`. -/
def earlyReply : Tweet :=
  { id := "er", author := "a", text := "early reply", date := ⟨5, none⟩, url := "u-er",
    is_reply := true, reply_to_id := some "lr" }

/-- A payload whose datetime field no date parser accepts. -/
def unparsablePayload : ApiTweet :=
  { id := some "i", author := some "a", text := some "t",
    datetime := some "garbage", url := some "u" }

/-- A payload with no datetime field at all. -/
def missingDatePayload : ApiTweet :=
  { id := some "i", author := some "a", text := some "t",
    datetime := none, url := some "u" }

/-! ## Supporting lemmas -/

lemma insertByDate_perm (t : Tweet) (l : List Tweet) :
    (insertByDate t l).Perm (t :: l) := by
  induction l with
  | nil => simp [insertByDate]
  | cons x xs ih =>
    by_cases h : t.date.key ≤ x.date.key
    · simp [insertByDate, h]
    · simp only [insertByDate, if_neg h]
      exact (List.Perm.cons x ih).trans (List.Perm.swap t x xs)

lemma sortByDate_perm (l : List Tweet) : (sortByDate l).Perm l := by
  induction l with
  | nil => simp [sortByDate]
  | cons a l ih =>
    show (insertByDate a (sortByDate l)).Perm (a :: l)
    exact (insertByDate_perm a (sortByDate l)).trans (List.Perm.cons a ih)

lemma insertByDate_sorted {t : Tweet} {l : List Tweet} (h : l.Pairwise dle) :
    (insertByDate t l).Pairwise dle := by
  induction l with
  | nil => simp [insertByDate, dle]
  | cons x xs ih =>
    rcases List.pairwise_cons.mp h with ⟨hx, hxs⟩
    by_cases hle : t.date.key ≤ x.date.key
    · rw [show insertByDate t (x :: xs) = t :: x :: xs by simp [insertByDate, hle]]
      refine List.pairwise_cons.mpr ⟨?_, h⟩
      intro b hb
      rcases List.mem_cons.mp hb with rfl | hb
      · exact hle
      · exact le_trans hle (hx b hb)
    · rw [show insertByDate t (x :: xs) = x :: insertByDate t xs by
        simp [insertByDate, hle]]
      refine List.pairwise_cons.mpr ⟨?_, ih hxs⟩
      intro b hb
      have hb2 := (insertByDate_perm t xs).mem_iff.mp hb
      rcases List.mem_cons.mp hb2 with rfl | hb2
      · exact le_of_not_le hle
      · exact hx b hb2

lemma sortByDate_sorted (l : List Tweet) : (sortByDate l).Pairwise dle := by
  induction l with
  | nil => simp [sortByDate]
  | cons a l ih =>
    show (insertByDate a (sortByDate l)).Pairwise dle
    exact insertByDate_sorted ih

lemma flatTweets_cons (th : Thread) (ths : List Thread) :
    flatTweets (th :: ths) = th.tweets ++ flatTweets ths := by
  simp [flatTweets]

lemma flatTweets_append (l1 l2 : List Thread) :
    flatTweets (l1 ++ l2) = flatTweets l1 ++ flatTweets l2 := by
  simp [flatTweets]

lemma mem_flatTweets {x : Tweet} {ths : List Thread} :
    x ∈ flatTweets ths ↔ ∃ th ∈ ths, x ∈ th.tweets := by
  simp [flatTweets]

lemma tweet_by_id_mem {tweets : List Tweet} {i : String} {p : Tweet}
    (h : tweet_by_id tweets i = some p) : p ∈ tweets :=
  List.mem_reverse.mp (List.mem_of_find?_eq_some h)

lemma tweet_by_id_id {tweets : List Tweet} {i : String} {p : Tweet}
    (h : tweet_by_id tweets i = some p) : p.id = i := by
  have := List.find?_some h
  simpa using this

lemma appendToFirst_shape (pid : String) (tw : Tweet) (ths : List Thread)
    (inT : List String) :
    ∀ th ∈ (appendToFirst pid tw ths inT).1, ∃ th0 ∈ ths,
      th = th0 ∨ th = { th0 with tweets := th0.tweets ++ [tw] } := by
  induction ths with
  | nil => intro th h; simp [appendToFirst] at h
  | cons t rest ih =>
    intro th h
    by_cases hm : threadMatches pid t = true
    · by_cases hc : tw.id ∈ inT
      · simp [appendToFirst, hm, hc] at h
        rcases h with heq | h
        · exact ⟨t, List.mem_cons_self t rest, Or.inl heq⟩
        · exact ⟨th, List.mem_cons_of_mem t h, Or.inl rfl⟩
      · simp [appendToFirst, hm, hc] at h
        rcases h with heq | h
        · exact ⟨t, List.mem_cons_self t rest, Or.inr heq⟩
        · exact ⟨th, List.mem_cons_of_mem t h, Or.inl rfl⟩
    · have hm' : threadMatches pid t = false := by simpa using hm
      simp only [appendToFirst, hm', Bool.false_eq_true, if_false] at h
      rcases List.mem_cons.mp h with heq | h
      · exact ⟨t, List.mem_cons_self t rest, Or.inl heq⟩
      · rcases ih th h with ⟨th0, hmem, hth⟩
        exact ⟨th0, List.mem_cons_of_mem t hmem, hth⟩

lemma appendToFirst_dichotomy (pid : String) (tw : Tweet) (ths : List Thread)
    (inT : List String) :
    appendToFirst pid tw ths inT = (ths, inT) ∨
    (tw.id ∉ inT ∧
     (appendToFirst pid tw ths inT).2 = inT ++ [tw.id] ∧
     (flatTweets (appendToFirst pid tw ths inT).1).Perm (tw :: flatTweets ths)) := by
  induction ths with
  | nil => exact Or.inl rfl
  | cons t rest ih =>
    by_cases hm : threadMatches pid t = true
    · by_cases hc : tw.id ∈ inT
      · left; simp [appendToFirst, hm, hc]
      · right
        refine ⟨hc, ?_, ?_⟩
        · simp [appendToFirst, hm, hc]
        · have hres : (appendToFirst pid tw (t :: rest) inT).1 =
              { t with tweets := t.tweets ++ [tw] } :: rest := by
            simp [appendToFirst, hm, hc]
          rw [hres, flatTweets_cons, flatTweets_cons]
          show ((t.tweets ++ [tw]) ++ flatTweets rest).Perm
            (tw :: (t.tweets ++ flatTweets rest))
          rw [List.append_assoc]
          exact List.perm_middle
    · have hm' : threadMatches pid t = false := by simpa using hm
      rcases ih with h | ⟨h1, h2, h3⟩
      · left
        simp [appendToFirst, hm', h]
      · right
        refine ⟨h1, ?_, ?_⟩
        · simp [appendToFirst, hm', h2]
        · have hres : (appendToFirst pid tw (t :: rest) inT).1 =
              t :: (appendToFirst pid tw rest inT).1 := by
            simp [appendToFirst, hm']
          rw [hres, flatTweets_cons, flatTweets_cons]
          exact (List.Perm.append_left t.tweets h3).trans List.perm_middle

lemma appendToFirst_mem (pid : String) (tw : Tweet) (ths : List Thread)
    (inT : List String)
    (hex : ∃ th ∈ ths, threadMatches pid th = true) :
    tw.id ∈ (appendToFirst pid tw ths inT).2 := by
  induction ths with
  | nil => simp at hex
  | cons t rest ih =>
    by_cases hm : threadMatches pid t = true
    · by_cases hc : tw.id ∈ inT
      · simp only [appendToFirst, hm, if_true]
        simp [hc]
      · simp [appendToFirst, hm, hc]
    · have hm' : threadMatches pid t = false := by simpa using hm
      rcases hex with ⟨th, hmem, hmatch⟩
      rcases List.mem_cons.mp hmem with heq | hmem
      · exact absurd (heq ▸ hmatch) hm
      · simp only [appendToFirst, hm', Bool.false_eq_true, if_false]
        exact ih ⟨th, hmem, hmatch⟩

lemma appendToFirst_inT_mono (pid : String) (tw : Tweet) (ths : List Thread)
    (inT : List String) : inT ⊆ (appendToFirst pid tw ths inT).2 := by
  rcases appendToFirst_dichotomy pid tw ths inT with h | ⟨_, h2, _⟩
  · rw [h]; exact fun x hx => hx
  · rw [h2]; exact List.subset_append_left _ _

/-- The invariant the main loop of `group_tweets_into_threads` maintains on
its state `(in_thread, threads)`: assigned ids are distinct and are exactly
the ids of the thread members (each appearing once overall), members come
from the batch, no thread has a resolved video url yet, and each thread
contains the seeding parent post carrying its id and date. -/
structure GInv (batch : List Tweet) (st : List String × List Thread) : Prop where
  nodup : st.1.Nodup
  ids_perm : ((flatTweets st.2).map (fun t => t.id)).Perm st.1
  mem_batch : ∀ tw ∈ flatTweets st.2, tw ∈ batch
  vnone : ∀ th ∈ st.2, th.video_url = none
  root_mem : ∀ th ∈ st.2, ∃ p ∈ th.tweets, p.id = th.id ∧ p.date = th.date

lemma ginv_seed {batch : List Tweet} {st : List String × List Thread}
    (inv : GInv batch st) {parent : Tweet} (hp : parent ∈ batch) :
    GInv batch (if st.1.contains parent.id then st
      else (st.1 ++ [parent.id],
            st.2 ++ [{ id := parent.id, author := parent.author,
                       date := parent.date, tweets := [parent],
                       video_url := none, video_file := none }])) := by
  by_cases hc : parent.id ∈ st.1
  · have hcc : st.1.contains parent.id = true := by simpa using hc
    rw [if_pos hcc]; exact inv
  · have hcc : ¬ (st.1.contains parent.id = true) := by simpa using hc
    rw [if_neg hcc]
    refine ⟨?_, ?_, ?_, ?_, ?_⟩
    · exact (List.perm_append_singleton parent.id st.1).nodup_iff.mpr
        (List.nodup_cons.mpr ⟨hc, inv.nodup⟩)
    · rw [flatTweets_append]
      have h1 : flatTweets
          [{ id := parent.id, author := parent.author, date := parent.date,
             tweets := [parent], video_url := none, video_file := none }] =
          [parent] := by simp [flatTweets]
      rw [h1, List.map_append]
      exact List.Perm.append_right _ inv.ids_perm
    · intro tw hmem
      rw [flatTweets_append] at hmem
      rcases List.mem_append.mp hmem with h | h
      · exact inv.mem_batch tw h
      · have : tw = parent := by
          simpa [flatTweets] using h
        exact this ▸ hp
    · intro th hmem
      rcases List.mem_append.mp hmem with h | h
      · exact inv.vnone th h
      · have hth : th = { id := parent.id, author := parent.author,
                          date := parent.date, tweets := [parent],
                          video_url := none, video_file := none } := by
          simpa using h
        rw [hth]
    · intro th hmem
      rcases List.mem_append.mp hmem with h | h
      · exact inv.root_mem th h
      · have hth : th = { id := parent.id, author := parent.author,
                          date := parent.date, tweets := [parent],
                          video_url := none, video_file := none } := by
          simpa using h
        subst hth
        exact ⟨parent, List.mem_singleton_self parent, rfl, rfl⟩

lemma ginv_appendToFirst {batch : List Tweet} {inT : List String}
    {ths : List Thread} (inv : GInv batch (inT, ths)) {pid : String}
    {tw : Tweet} (htw : tw ∈ batch) :
    GInv batch ((appendToFirst pid tw ths inT).2, (appendToFirst pid tw ths inT).1) := by
  rcases appendToFirst_dichotomy pid tw ths inT with h | ⟨hfresh, h2, h3⟩
  · rw [h]; exact inv
  · refine ⟨?_, ?_, ?_, ?_, ?_⟩
    · rw [h2]
      exact (List.perm_append_singleton tw.id inT).nodup_iff.mpr
        (List.nodup_cons.mpr ⟨hfresh, inv.nodup⟩)
    · rw [h2]
      have e1 : ((flatTweets (appendToFirst pid tw ths inT).1).map (fun t => t.id)).Perm
          ((tw :: flatTweets ths).map (fun t => t.id)) := h3.map _
      have e3 : (tw.id :: (flatTweets ths).map (fun t => t.id)).Perm (tw.id :: inT) :=
        List.Perm.cons tw.id inv.ids_perm
      have e4 : (tw.id :: inT).Perm (inT ++ [tw.id]) :=
        (List.perm_append_singleton tw.id inT).symm
      exact (e1.trans e3).trans e4
    · intro x hx
      have := h3.mem_iff.mp hx
      rcases List.mem_cons.mp this with heq | hmem
      · exact heq ▸ htw
      · exact inv.mem_batch x hmem
    · intro th hth
      rcases appendToFirst_shape pid tw ths inT th hth with ⟨th0, hmem, hcase⟩
      have h0 := inv.vnone th0 hmem
      rcases hcase with rfl | rfl
      · exact h0
      · simpa using h0
    · intro th hth
      rcases appendToFirst_shape pid tw ths inT th hth with ⟨th0, hmem, hcase⟩
      rcases inv.root_mem th0 hmem with ⟨p, hpmem, hpid, hpdate⟩
      rcases hcase with rfl | rfl
      · exact ⟨p, hpmem, hpid, hpdate⟩
      · exact ⟨p, List.mem_append_left _ hpmem, hpid, hpdate⟩

lemma ginv_groupStep {batch : List Tweet} {byId : String → Option Tweet}
    (hby : ∀ i p, byId i = some p → p ∈ batch) (target : String)
    {st : List String × List Thread} (inv : GInv batch st)
    {tweet : Tweet} (htw : tweet ∈ batch) :
    GInv batch (groupStep byId target st tweet) := by
  simp only [groupStep]
  split
  · split
    · rename_i parent hpar
      split
      · exact ginv_appendToFirst (ginv_seed inv (hby _ _ hpar)) htw
      · exact inv
    · exact inv
  · exact inv

lemma ginv_foldl {batch : List Tweet} {byId : String → Option Tweet}
    (hby : ∀ i p, byId i = some p → p ∈ batch) (target : String) :
    ∀ (l : List Tweet) (st : List String × List Thread),
      (∀ t ∈ l, t ∈ batch) → GInv batch st →
      GInv batch (l.foldl (groupStep byId target) st)
  | [], st, _, inv => inv
  | t :: rest, st, hl, inv => by
    have ht : t ∈ batch := hl t (List.mem_cons_self t rest)
    have hrest : ∀ x ∈ rest, x ∈ batch := fun x hx => hl x (List.mem_cons_of_mem t hx)
    exact ginv_foldl hby target rest _ hrest (ginv_groupStep hby target inv ht)

lemma groupStep_inT_mono (byId : String → Option Tweet) (target : String)
    (st : List String × List Thread) (tweet : Tweet) :
    st.1 ⊆ (groupStep byId target st tweet).1 := by
  simp only [groupStep]
  split
  · split
    · rename_i parent hpar
      split
      · intro x hx
        refine appendToFirst_inT_mono _ _ _ _ ?_
        by_cases hc : st.1.contains parent.id = true
        · rw [if_pos hc]; exact hx
        · rw [if_neg hc]; exact List.mem_append_left _ hx
      · exact fun _ hx => hx
    · exact fun _ hx => hx
  · exact fun _ hx => hx

lemma foldl_inT_mono (byId : String → Option Tweet) (target : String) :
    ∀ (l : List Tweet) (st : List String × List Thread),
      st.1 ⊆ (l.foldl (groupStep byId target) st).1
  | [], _ => fun _ hx => hx
  | t :: rest, st => fun _ hx =>
    foldl_inT_mono byId target rest (groupStep byId target st t)
      (groupStep_inT_mono byId target st t hx)

lemma groupStep_mem_of_cont {batch : List Tweet} {byId : String → Option Tweet}
    {target : String} {st : List String × List Thread} (inv : GInv batch st)
    {tweet : Tweet}
    (hcont : isContinuationB byId target tweet = true) :
    tweet.id ∈ (groupStep byId target st tweet).1 := by
  rcases Bool.and_eq_true_iff.mp hcont with ⟨hg, hmat⟩
  rcases hpar : byId (tweet.reply_to_id.getD "") with _ | parent
  · rw [hpar] at hmat; simp at hmat
  · rw [hpar] at hmat
    have hauth : parent.author = tweet.author ∧ tweet.author = target := by
      simpa using hmat
    simp only [groupStep, hg, if_true, hpar]
    rw [if_pos hauth]
    refine appendToFirst_mem _ _ _ _ ?_
    by_cases hc : parent.id ∈ st.1
    · have hcc : st.1.contains parent.id = true := by simpa using hc
      rw [if_pos hcc]
      have : parent.id ∈ (flatTweets st.2).map (fun t => t.id) :=
        inv.ids_perm.mem_iff.mpr hc
      rcases List.mem_map.mp this with ⟨p, hpmem, hpid⟩
      rcases mem_flatTweets.mp hpmem with ⟨th, hthmem, hpth⟩
      refine ⟨th, hthmem, ?_⟩
      have hgoal : th.id = parent.id ∨ ∃ a ∈ th.tweets, a.id = parent.id :=
        Or.inr ⟨p, hpth, hpid⟩
      simpa [threadMatches] using hgoal
    · have hcc : ¬ (st.1.contains parent.id = true) := by simpa using hc
      rw [if_neg hcc]
      refine ⟨_, List.mem_append_right _ (List.mem_singleton_self _), ?_⟩
      simp [threadMatches]

lemma pyTruthy_iff (o : Option String) :
    pyTruthy o = true ↔ ∃ v, o = some v ∧ v ≠ "" := by
  cases o <;> simp [pyTruthy]

lemma ginv_groupState (tweets : List Tweet) (target : String) :
    GInv tweets (groupState tweets target) := by
  refine ginv_foldl (fun i p h => tweet_by_id_mem h) target tweets ([], [])
    (fun t ht => ht) ?_
  exact ⟨List.nodup_nil, by simp [flatTweets], by simp [flatTweets],
    by simp, by simp⟩

lemma cont_assigned {tweets : List Tweet} {target : String} {t : Tweet}
    (ht : t ∈ tweets)
    (hcont : isContinuationB (tweet_by_id tweets) target t = true) :
    t.id ∈ (groupState tweets target).1 := by
  rcases List.append_of_mem ht with ⟨l1, l2, rfl⟩
  unfold groupState
  rw [List.foldl_append, List.foldl_cons]
  have inv1 : GInv (l1 ++ t :: l2)
      (List.foldl (groupStep (tweet_by_id (l1 ++ t :: l2)) target) ([], []) l1) :=
    ginv_foldl (fun i p h => tweet_by_id_mem h) target l1 ([], [])
      (fun x hx => List.mem_append_left _ hx)
      ⟨List.nodup_nil, by simp [flatTweets], by simp [flatTweets],
        by simp, by simp⟩
  exact foldl_inT_mono _ target l2 _ (groupStep_mem_of_cont inv1 hcont)

lemma standalone_iff {tweets : List Tweet} {target : String} {t : Tweet} :
    t ∈ (group_tweets_into_threads tweets target).1 ↔
      t ∈ tweets ∧ t.id ∉ (groupState tweets target).1 := by
  simp [group_tweets_into_threads, List.mem_filter]

lemma group_threads_eq (tweets : List Tweet) (target : String) :
    (group_tweets_into_threads tweets target).2 =
      (groupState tweets target).2.map finalizeThread := rfl

lemma finalizeThread_tweets (th : Thread) :
    (finalizeThread th).tweets = sortByDate th.tweets := rfl

lemma finalizeThread_id (th : Thread) : (finalizeThread th).id = th.id := rfl

lemma finalizeThread_date (th : Thread) : (finalizeThread th).date = th.date := rfl

lemma flatTweets_finalize_perm (ths : List Thread) :
    (flatTweets (ths.map finalizeThread)).Perm (flatTweets ths) := by
  induction ths with
  | nil => simp [flatTweets]
  | cons th rest ih =>
    rw [List.map_cons, flatTweets_cons, flatTweets_cons, finalizeThread_tweets]
    exact List.Perm.append (sortByDate_perm th.tweets) ih

lemma flat_mem_filter_perm {tweets : List Tweet} {target : String}
    (H : (tweets.map (fun t => t.id)).Nodup) :
    (flatTweets (groupState tweets target).2).Perm
      (tweets.filter (fun t => (groupState tweets target).1.contains t.id)) := by
  set st := groupState tweets target with hst
  have inv : GInv tweets st := ginv_groupState tweets target
  have hFid := inv.ids_perm
  have hFnodupIds : ((flatTweets st.2).map (fun t => t.id)).Nodup :=
    hFid.nodup_iff.mpr inv.nodup
  have hFnodup : (flatTweets st.2).Nodup := hFnodupIds.of_map _
  have hBnodup : (tweets.filter (fun t => st.1.contains t.id)).Nodup :=
    (H.of_map _).filter _
  have hmemiff : ∀ x, x ∈ flatTweets st.2 ↔
      x ∈ tweets.filter (fun t => st.1.contains t.id) := by
    intro x
    constructor
    · intro hx
      refine List.mem_filter.mpr ⟨inv.mem_batch x hx, ?_⟩
      have hxid : x.id ∈ st.1 :=
        hFid.mem_iff.mp (List.mem_map_of_mem (fun t => t.id) hx)
      simpa using hxid
    · intro hx
      rcases List.mem_filter.mp hx with ⟨hxt, hxc⟩
      have hxid : x.id ∈ st.1 := by simpa using hxc
      have hxmap : x.id ∈ (flatTweets st.2).map (fun t => t.id) :=
        hFid.mem_iff.mpr hxid
      rcases List.mem_map.mp hxmap with ⟨y, hy, hyid⟩
      have hyt : y ∈ tweets := inv.mem_batch y hy
      have : y = x := List.inj_on_of_nodup_map H hyt hxt hyid
      exact this ▸ hy
  refine List.perm_of_nodup_nodup_toFinset_eq hFnodup hBnodup ?_
  ext x
  simp only [List.mem_toFinset]
  exact hmemiff x

lemma group_partition {tweets : List Tweet} {target : String}
    (H : (tweets.map (fun t => t.id)).Nodup) :
    ((group_tweets_into_threads tweets target).1 ++
      flatTweets (group_tweets_into_threads tweets target).2).Perm tweets := by
  have hflat : (flatTweets (group_tweets_into_threads tweets target).2).Perm
      (flatTweets (groupState tweets target).2) := by
    rw [group_threads_eq]; exact flatTweets_finalize_perm _
  have h1 : ((group_tweets_into_threads tweets target).1 ++
      flatTweets (group_tweets_into_threads tweets target).2).Perm
      ((group_tweets_into_threads tweets target).1 ++
        tweets.filter (fun t => (groupState tweets target).1.contains t.id)) :=
    List.Perm.append_left _ (hflat.trans (flat_mem_filter_perm H))
  refine h1.trans ?_
  have hstand : (group_tweets_into_threads tweets target).1 =
      tweets.filter (fun t => !((groupState tweets target).1.contains t.id)) := rfl
  rw [hstand]
  exact (List.perm_append_comm).trans
    (List.filter_append_perm (fun t => (groupState tweets target).1.contains t.id) tweets)

lemma group_thread_facts {tweets : List Tweet} {target : String} :
    ∀ th ∈ (group_tweets_into_threads tweets target).2,
      th.tweets ≠ [] ∧ th.tweets.Pairwise dle ∧
      ∃ p ∈ th.tweets, p.id = th.id ∧ p.date = th.date := by
  intro th hth
  rw [group_threads_eq] at hth
  rcases List.mem_map.mp hth with ⟨th0, h0, rfl⟩
  have inv := ginv_groupState tweets target
  rcases inv.root_mem th0 h0 with ⟨p, hp, hpid, hpdate⟩
  have hpmem : p ∈ (finalizeThread th0).tweets := by
    rw [finalizeThread_tweets]
    exact (sortByDate_perm th0.tweets).mem_iff.mpr hp
  refine ⟨?_, ?_, ?_⟩
  · intro he
    rw [he] at hpmem
    simp at hpmem
  · rw [finalizeThread_tweets]
    exact sortByDate_sorted th0.tweets
  · exact ⟨p, hpmem, by rw [finalizeThread_id]; exact hpid,
      by rw [finalizeThread_date]; exact hpdate⟩

lemma group_video_facts {tweets : List Tweet} {target : String} :
    ∀ th ∈ (group_tweets_into_threads tweets target).2,
      (th.video_url = none ∨ ∃ v, th.video_url = some v ∧ v ≠ "") ∧
      (th.has_video = true ↔ th.get_first_video_url.isSome = true) := by
  intro th hth
  rw [group_threads_eq] at hth
  rcases List.mem_map.mp hth with ⟨th0, h0, rfl⟩
  have inv := ginv_groupState tweets target
  have hv0 : th0.video_url = none := inv.vnone th0 h0
  have hfin : finalizeThread th0 =
      { th0 with tweets := sortByDate th0.tweets,
                 video_url := Thread.get_first_video_url
                   { th0 with tweets := sortByDate th0.tweets } } := rfl
  have hg : Thread.get_first_video_url { th0 with tweets := sortByDate th0.tweets } =
      (match (sortByDate th0.tweets).find? (fun t => pyTruthy t.video_url) with
       | some t => t.video_url
       | none => none) := by
    simp [Thread.get_first_video_url, hv0, pyTruthy]
  rcases hfind : (sortByDate th0.tweets).find? (fun t => pyTruthy t.video_url)
    with _ | t
  · have hvu : (finalizeThread th0).video_url = none := by
      rw [hfin, hg]
      simp [hfind]
    have hall : ∀ x ∈ sortByDate th0.tweets, pyTruthy x.video_url = false := by
      intro x hx
      have := List.find?_eq_none.mp hfind x hx
      simpa using this
    constructor
    · exact Or.inl hvu
    · have hhv : (finalizeThread th0).has_video = false := by
        simp only [Thread.has_video, hvu, Option.isSome_none, Bool.false_or]
        rw [finalizeThread_tweets]
        rw [List.any_eq_false]
        intro x hx
        simp [hall x hx]
      have hgf : (finalizeThread th0).get_first_video_url = none := by
        simp only [Thread.get_first_video_url, hvu, finalizeThread_tweets]
        rw [hfind]
        rfl
      rw [hhv, hgf]
      simp
  · have htr0 := List.find?_some hfind
    have htr : pyTruthy t.video_url = true := by simpa using htr0
    rcases (pyTruthy_iff t.video_url).mp htr with ⟨v, hv, hvne⟩
    have hvu : (finalizeThread th0).video_url = some v := by
      rw [hfin, hg]
      simp [hfind, hv]
    constructor
    · exact Or.inr ⟨v, hvu, hvne⟩
    · have htrv : pyTruthy (some v) = true := by
        simp [pyTruthy, hvne]
      have hhv : (finalizeThread th0).has_video = true := by
        simp [Thread.has_video, hvu]
      have hgf : (finalizeThread th0).get_first_video_url = some v := by
        simp [Thread.get_first_video_url, hvu, htrv]
      rw [hhv, hgf]
      simp

lemma normalizedNaive (d : PyDateTime) :
    (if d.tz.isSome then d.replaceTzNone else d).naive = d.naive := by
  rcases d with ⟨n, tz⟩
  cases tz <;> simp [PyDateTime.replaceTzNone]

lemma download_thread_video_go_all_fail (fetch : String → String → Option String)
    (th : Thread) :
    ∀ l : List Tweet, (∀ tw ∈ l, fetch tw.url th.get_video_filename = none) →
      download_thread_video_go fetch th l = (th, false)
  | [], _ => rfl
  | t :: rest, hall => by
    have ht := hall t (List.mem_cons_self t rest)
    have hrest : ∀ tw ∈ rest, fetch tw.url th.get_video_filename = none :=
      fun tw htw => hall tw (List.mem_cons_of_mem t htw)
    by_cases hc : (pyTruthy t.video_url || (t.url != "")) = true
    · simp only [download_thread_video_go, hc, if_true, ht]
      exact download_thread_video_go_all_fail fetch th rest hrest
    · simp only [download_thread_video_go, hc, Bool.false_eq_true, if_false]
      exact download_thread_video_go_all_fail fetch th rest hrest

/-! ## Claim theorems -/

/-- C5: `filter_tweets_by_date` returns exactly the posts whose normalized
(wall-clock) timestamp lies inclusively between `start_date` and `end_date`;
posts timestamped exactly at either boundary are retained; the result is a
sublist of the input (the original `Tweet` values, unmodified, in order —
the filter mutates nothing). -/
theorem c5_date_filter_inclusive (tweets : List Tweet) (start_date end_date : Int) :
    (∀ t : Tweet, t ∈ filter_tweets_by_date tweets start_date end_date ↔
      (t ∈ tweets ∧ start_date ≤ t.date.replaceTzNone.naive ∧
        t.date.replaceTzNone.naive ≤ end_date)) ∧
    (∀ t ∈ tweets, t.date.replaceTzNone.naive = start_date →
      start_date ≤ end_date →
      t ∈ filter_tweets_by_date tweets start_date end_date) ∧
    (∀ t ∈ tweets, t.date.replaceTzNone.naive = end_date →
      start_date ≤ end_date →
      t ∈ filter_tweets_by_date tweets start_date end_date) ∧
    (filter_tweets_by_date tweets start_date end_date).Sublist tweets := by
  have hmem : ∀ t : Tweet, t ∈ filter_tweets_by_date tweets start_date end_date ↔
      (t ∈ tweets ∧ start_date ≤ t.date.replaceTzNone.naive ∧
        t.date.replaceTzNone.naive ≤ end_date) := by
    intro t
    rw [filter_tweets_by_date, List.mem_filter]
    have hn := normalizedNaive t.date
    have hr : t.date.replaceTzNone.naive = t.date.naive := rfl
    constructor
    · rintro ⟨h1, h2⟩
      rw [decide_eq_true_eq] at h2
      rw [hn] at h2
      exact ⟨h1, by rw [hr]; exact h2.1, by rw [hr]; exact h2.2⟩
    · rintro ⟨h1, h2, h3⟩
      refine ⟨h1, ?_⟩
      rw [decide_eq_true_eq, hn]
      rw [hr] at h2 h3
      exact ⟨h2, h3⟩
  refine ⟨hmem, ?_, ?_, List.filter_sublist tweets⟩
  · intro t ht heq hrange
    exact (hmem t).mpr ⟨ht, le_of_eq heq.symm, by rw [heq]; exact hrange⟩
  · intro t ht heq hrange
    exact (hmem t).mpr ⟨ht, by rw [heq]; exact hrange, le_of_eq heq⟩

/-- C5 witness: a tweet timestamped exactly at the start boundary (with an
aware date whose wall clock equals the bound) is retained. -/
theorem c5_witness :
    (lateRoot ∈ [lateRoot] ∧ lateRoot.date.replaceTzNone.naive = 10 ∧
      (10 : Int) ≤ 20) ∧
    lateRoot ∈ filter_tweets_by_date [lateRoot] 10 20 := by
  refine ⟨⟨by decide, by decide, by decide⟩, ?_⟩
  exact (c5_date_filter_inclusive [lateRoot] 10 20).2.1 lateRoot
    (by decide) (by decide) (by decide)

/-- C7 counterexample: a payload whose datetime field is present but
unparsable (the date parser models `dateutil` raising on "garbage") is a
parse failure — `parse_api_tweet` returns `none`, it does not fall back to
"now" and produce a Post, contradicting the claim. -/
theorem c7_counterexample :
    parse_api_tweet (fun _ => none) ⟨0, none⟩ unparsablePayload = none := rfl

/-- C7 (amended): a missing (or empty) datetime field falls back to "now"
and still produces a Post; a present but unparsable datetime makes the whole
payload a parse failure (`none`). -/
theorem c7_missing_date_fallback (dp : String → Option PyDateTime)
    (now : PyDateTime) (d : ApiTweet) (i a tx u : String)
    (hid : d.id = some i) (hau : d.author = some a) (htx : d.text = some tx)
    (hurl : d.url = some u) :
    ((d.datetime = none ∨ d.datetime = some "") →
      parse_api_tweet dp now d =
        some { id := i, author := a, text := tx, date := now, url := u,
               video_url := d.videoUrl, is_retweet := d.isRetweet.getD false,
               is_reply := d.isReply.getD false, reply_to_id := d.replyToId }) ∧
    (∀ s, d.datetime = some s → s ≠ "" → dp s = none →
      parse_api_tweet dp now d = none) := by
  constructor
  · rintro (hdt | hdt) <;>
      simp [parse_api_tweet, hdt, hid, hau, htx, hurl]
  · intro s hdt hne hdp
    simp [parse_api_tweet, hdt, hne, hdp]

/-- C7 witness: a payload with no datetime parses to a Post dated "now". -/
theorem c7_witness :
    (missingDatePayload.id = some "i" ∧ missingDatePayload.author = some "a" ∧
      missingDatePayload.text = some "t" ∧ missingDatePayload.url = some "u" ∧
      missingDatePayload.datetime = none) ∧
    parse_api_tweet (fun _ => none) ⟨7, none⟩ missingDatePayload =
      some { id := "i", author := "a", text := "t", date := ⟨7, none⟩,
             url := "u", video_url := none, is_retweet := false,
             is_reply := false, reply_to_id := none } := by
  refine ⟨⟨rfl, rfl, rfl, rfl, rfl⟩, ?_⟩
  exact (c7_missing_date_fallback (fun _ => none) ⟨7, none⟩ missingDatePayload
    "i" "a" "t" "u" rfl rfl rfl rfl).1 (Or.inl rfl)

/-- C8: when the upload file (after any optional cleanup) exceeds the fixed
25MB ceiling, `transcribe` raises the size error before any service call: no
call to the transcription service is made (the call log is empty), hence no
fallback retry occurs for this error. -/
theorem c8_size_ceiling {α : Type} (svc : String → Except String α)
    (selected_model : String) (upload_size : Nat)
    (h : upload_size > MAX_FILE_SIZE) :
    transcribeFlow svc selected_model upload_size =
      (Except.error TranscribeError.tooLarge, []) := by
  simp [transcribeFlow, h]

/-- C8 witness: one byte over the ceiling is rejected with no service call. -/
theorem c8_witness :
    25 * 1024 * 1024 + 1 > MAX_FILE_SIZE ∧
    transcribeFlow (fun _ => Except.ok 0) DEFAULT_BETTER_MODEL
        (25 * 1024 * 1024 + 1) =
      (Except.error TranscribeError.tooLarge, []) :=
  ⟨by decide, c8_size_ceiling (fun _ => Except.ok 0) DEFAULT_BETTER_MODEL _
    (by decide)⟩

/-- C9: whenever the external tool produced a file with one of the probed
extensions, `download_video` returns a path ending in `.mp4`; the file is
renamed exactly when the produced extension differs from `mp4`, and returned
unrenamed when it is already `mp4`. -/
theorem c9_extension_normalized (stem produced : String)
    (h : produced ∈ EXT_CANDIDATES) :
    normalize_download stem produced = some (stem ++ ".mp4", produced != "mp4") := by
  have h4 : produced = "mp4" ∨ produced = "mkv" ∨ produced = "webm" ∨
      produced = "mov" := by simpa [EXT_CANDIDATES] using h
  rcases h4 with rfl | rfl | rfl | rfl <;> rfl

/-- C9 witness: a webm download is renamed to an mp4 path; an mp4 download
is returned unrenamed. -/
theorem c9_witness :
    ("webm" ∈ EXT_CANDIDATES ∧ "mp4" ∈ EXT_CANDIDATES) ∧
    normalize_download "2024_01_02_42_video" "webm" =
      some ("2024_01_02_42_video.mp4", true) ∧
    normalize_download "2024_01_02_42_video" "mp4" =
      some ("2024_01_02_42_video.mp4", false) := by
  refine ⟨⟨by decide, by decide⟩, ?_, ?_⟩
  · exact c9_extension_normalized "2024_01_02_42_video" "webm" (by decide)
  · exact c9_extension_normalized "2024_01_02_42_video" "mp4" (by decide)

/-- C4 counterexample: when the primary model is already the fallback model
("whisper-1") and the call fails with a keyword-matching model-unavailable
error, the code makes no retry at all — the call log stays `["whisper-1"]`
and the error propagates — contradicting the claim that such an error always
triggers exactly one fallback retry. -/
theorem c4_counterexample :
    matchesModelUnavailable "model not found" = true ∧
    transcribeFlow (fun _ => (Except.error "model not found" : Except String Nat))
        "whisper-1" 0 =
      (Except.error (TranscribeError.service "model not found"), ["whisper-1"]) := by
  constructor
  · decide
  · rfl

/-- C4 (amended): when the upload passes the size check and the primary call
fails, then (i) if the error text matches the model-unavailable keywords
*and the primary model is not already the fallback model*, exactly one retry
is made with the fallback model — the call log is precisely
`[primary, fallback]` — and the fallback's outcome (success or error) is
returned with no further retry; (ii) on a non-matching error no fallback
call is made and the error propagates; (iii) if the primary already is the
fallback model, no retry is made even for a matching error. -/
theorem c4_fallback_retry {α : Type} (svc : String → Except String α)
    (selected_model : String) (upload_size : Nat) (e : String)
    (hsize : ¬ upload_size > MAX_FILE_SIZE)
    (herr : svc selected_model = Except.error e) :
    ((matchesModelUnavailable e = true → selected_model ≠ FALLBACK_MODEL →
      transcribeFlow svc selected_model upload_size =
        ((match svc FALLBACK_MODEL with
          | Except.ok r => Except.ok r
          | Except.error e2 => Except.error (TranscribeError.service e2)),
         [selected_model, FALLBACK_MODEL])) ∧
     (matchesModelUnavailable e = false →
      transcribeFlow svc selected_model upload_size =
        (Except.error (TranscribeError.service e), [selected_model])) ∧
     (selected_model = FALLBACK_MODEL →
      transcribeFlow svc selected_model upload_size =
        (Except.error (TranscribeError.service e), [selected_model]))) := by
  refine ⟨?_, ?_, ?_⟩
  · intro hmat hne
    simp only [transcribeFlow, if_neg hsize, herr]
    rw [if_pos ⟨hne, hmat⟩]
    rcases svc FALLBACK_MODEL with e2 | r <;> rfl
  · intro hmat
    simp only [transcribeFlow, if_neg hsize, herr]
    rw [if_neg]
    rintro ⟨-, h2⟩
    rw [hmat] at h2
    exact Bool.false_ne_true h2
  · intro heqf
    simp only [transcribeFlow, if_neg hsize, herr]
    rw [if_neg]
    rintro ⟨h1, -⟩
    exact h1 heqf

/-- C4 witness: a primary model failing with a "does not exist" error is
retried exactly once on the fallback model, which succeeds; the call log
shows precisely the two calls. -/
theorem c4_witness :
    (¬ (0 : Nat) > MAX_FILE_SIZE ∧
     (fun m => if m = FALLBACK_MODEL then Except.ok 1 else
        Except.error "The model gpt-4o-mini-transcribe does not exist")
       DEFAULT_BETTER_MODEL =
       Except.error "The model gpt-4o-mini-transcribe does not exist" ∧
     matchesModelUnavailable "The model gpt-4o-mini-transcribe does not exist" = true ∧
     DEFAULT_BETTER_MODEL ≠ FALLBACK_MODEL) ∧
    transcribeFlow
        (fun m => if m = FALLBACK_MODEL then Except.ok 1 else
          Except.error "The model gpt-4o-mini-transcribe does not exist")
        DEFAULT_BETTER_MODEL 0 =
      (Except.ok 1, [DEFAULT_BETTER_MODEL, FALLBACK_MODEL]) := by
  refine ⟨⟨by decide, rfl, by decide, by decide⟩, ?_⟩
  have h := (c4_fallback_retry
    (fun m => if m = FALLBACK_MODEL then Except.ok 1 else
      Except.error "The model gpt-4o-mini-transcribe does not exist")
    DEFAULT_BETTER_MODEL 0 "The model gpt-4o-mini-transcribe does not exist"
    (by decide) rfl).1 (by decide) (by decide)
  rw [h]
  rfl

/-- C6: on downloader failure (the external tool reporting not-found or
raising, both surfaced as a `none` outcome by `download_video`'s catch-all),
`process_tweet` and `process_thread` still write the item's JSON sidecar at
its deterministic path and return success = false with that JSON path; and
the batch loop always yields one result per input item, each with a JSON
path, regardless of the downloader's outcomes. -/
theorem c6_json_on_failure (fetch : String → String → Option String)
    (output_dir : String) :
    (∀ (t : Tweet) (written : List String),
      fetch t.url t.get_video_filename = none →
      process_tweet fetch output_dir t written =
        ({ success := false, video_path := none,
           json_path := some (output_dir ++ "/" ++ t.get_tweet_filename) }, t,
         written ++ [output_dir ++ "/" ++ t.get_tweet_filename])) ∧
    (∀ (th : Thread) (written : List String),
      (∀ tw ∈ th.tweets, fetch tw.url th.get_video_filename = none) →
      process_thread fetch output_dir th written =
        ({ success := false, video_path := none,
           json_path := some (output_dir ++ "/" ++ th.get_thread_filename) }, th,
         written ++ [output_dir ++ "/" ++ th.get_thread_filename])) ∧
    (∀ (ts : List Tweet) (written : List String),
      (processTweetsBatch fetch output_dir ts written).1.length = ts.length ∧
      ∀ r ∈ (processTweetsBatch fetch output_dir ts written).1,
        r.json_path.isSome = true) := by
  refine ⟨?_, ?_, ?_⟩
  · intro t written hfail
    simp [process_tweet, download_tweet_video, hfail, save_tweet_json]
  · intro th written hfail
    have hdl : download_thread_video fetch th = (th, false) :=
      download_thread_video_go_all_fail fetch th th.tweets hfail
    by_cases hv : th.has_video = true
    · simp [process_thread, hv, hdl, save_thread_json]
    · simp [process_thread, hv, save_thread_json]
  · intro ts
    induction ts with
    | nil => intro written; exact ⟨rfl, by intro r hr; simp [processTweetsBatch] at hr⟩
    | cons t rest ih =>
      intro written
      by_cases hc : pyTruthy t.video_url = true
      · constructor
        · simp only [processTweetsBatch, hc, if_true, List.length_cons]
          rw [(ih _).1]
        · intro r hr
          simp only [processTweetsBatch, hc, if_true, List.mem_cons] at hr
          rcases hr with rfl | hr
          · simp [process_tweet]
          · exact (ih _).2 r hr
      · constructor
        · simp only [processTweetsBatch, hc, Bool.false_eq_true, if_false,
            List.length_cons]
          rw [(ih _).1]
        · intro r hr
          simp only [processTweetsBatch, hc, Bool.false_eq_true, if_false,
            List.mem_cons] at hr
          rcases hr with rfl | hr
          · rfl
          · exact (ih _).2 r hr

/-- C6 witness: with a downloader that always fails, a video-bearing tweet
still gets its sidecar written and a success = false result. -/
theorem c6_witness :
    ((fun _ _ => (none : Option String)) lateRoot.url lateRoot.get_video_filename =
      none) ∧
    process_tweet (fun _ _ => none) "out" lateRoot [] =
      ({ success := false, video_path := none,
         json_path := some ("out" ++ "/" ++ lateRoot.get_tweet_filename) }, lateRoot,
       [] ++ ["out" ++ "/" ++ lateRoot.get_tweet_filename]) :=
  ⟨rfl, (c6_json_on_failure (fun _ _ => none) "out").1 lateRoot [] rfl⟩

/-- C2 counterexample: with a batch member whose identifier is the empty
string, a reply whose parent identifier is `""` *does* resolve in the index
and satisfies every authorship condition of the claim, yet the code's
truthiness guard on `reply_to_id` rejects it: it is not treated as a
continuation and lands in the standalone set, contradicting the claimed
"if and only if". -/
theorem c2_counterexample :
    isContinuationSpecB (tweet_by_id [emptyIdTweet, emptyParentReply]) "a"
        emptyParentReply = true ∧
    isContinuationB (tweet_by_id [emptyIdTweet, emptyParentReply]) "a"
        emptyParentReply = false ∧
    emptyParentReply ∈
      (group_tweets_into_threads [emptyIdTweet, emptyParentReply] "a").1 := by
  refine ⟨by decide, by decide, by decide⟩

/-- C2 (amended): a Post is treated as a thread continuation iff it is
marked as a reply, its parent identifier is *non-empty* and resolves in the
batch index, and both it and the resolved parent are authored by the target
author; every continuation in the batch ends up assigned (never standalone);
a batch Post is standalone exactly when its id was never assigned to a
thread; and in particular a non-reply, a reply whose parent is outside the
batch, and a post by an author other than the target are never
continuations. -/
theorem c2_continuation_criteria (tweets : List Tweet) (target_author : String) :
    (∀ t : Tweet,
      isContinuationB (tweet_by_id tweets) target_author t = true ↔
        (t.is_reply = true ∧ ∃ rid, t.reply_to_id = some rid ∧ rid ≠ "" ∧
         ∃ parent, tweet_by_id tweets rid = some parent ∧
           parent.author = target_author ∧ t.author = target_author)) ∧
    (∀ t ∈ tweets, isContinuationB (tweet_by_id tweets) target_author t = true →
      t ∉ (group_tweets_into_threads tweets target_author).1) ∧
    (∀ t ∈ tweets,
      (t ∈ (group_tweets_into_threads tweets target_author).1 ↔
        t.id ∉ (groupState tweets target_author).1)) ∧
    (∀ t : Tweet, t.is_reply = false →
      isContinuationB (tweet_by_id tweets) target_author t = false) ∧
    (∀ t : Tweet,
      (∀ rid, t.reply_to_id = some rid → tweet_by_id tweets rid = none) →
      isContinuationB (tweet_by_id tweets) target_author t = false) ∧
    (∀ t : Tweet, t.author ≠ target_author →
      isContinuationB (tweet_by_id tweets) target_author t = false) := by
  refine ⟨?_, ?_, ?_, ?_, ?_, ?_⟩
  · intro t
    rw [isContinuationB]
    constructor
    · intro h
      rcases Bool.and_eq_true_iff.mp h with ⟨hg, hmat⟩
      rcases Bool.and_eq_true_iff.mp hg with ⟨hrep, htru⟩
      rcases (pyTruthy_iff _).mp htru with ⟨rid, hrid, hne⟩
      rw [hrid] at hmat
      simp only [Option.getD_some] at hmat
      rcases hpar : tweet_by_id tweets rid with _ | parent
      · rw [hpar] at hmat
        exact absurd hmat (by simp)
      · rw [hpar] at hmat
        simp only [decide_eq_true_eq] at hmat
        exact ⟨hrep, rid, hrid, hne, parent, hpar, hmat.1.trans hmat.2, hmat.2⟩
    · rintro ⟨hrep, rid, hrid, hne, parent, hpar, hpa, hta⟩
      have htru : pyTruthy t.reply_to_id = true :=
        (pyTruthy_iff _).mpr ⟨rid, hrid, hne⟩
      rw [hrep, htru, hrid]
      simp only [Option.getD_some, hpar, Bool.true_and, decide_eq_true_eq]
      exact ⟨hpa.trans hta.symm, hta⟩
  · intro t ht hcont hmem
    exact (standalone_iff.mp hmem).2 (cont_assigned ht hcont)
  · intro t ht
    constructor
    · intro hmem
      exact (standalone_iff.mp hmem).2
    · intro hna
      exact standalone_iff.mpr ⟨ht, hna⟩
  · intro t h
    rw [isContinuationB, h]
    simp
  · intro t hnone
    rw [isContinuationB]
    rcases hr : t.reply_to_id with _ | rid
    · simp [pyTruthy]
    · by_cases he : rid = ""
      · subst he
        simp [pyTruthy]
      · simp only [Option.getD_some]
        rw [hnone rid hr]
        simp
  · intro t hne
    rcases hpar : tweet_by_id tweets (t.reply_to_id.getD "") with _ | parent
    · simp [isContinuationB, hpar]
    · simp [isContinuationB, hpar, hne]

/-- C2 witness: the first reply of a two-post chain satisfies the amended
continuation criterion and is indeed kept out of the standalone set. -/
theorem c2_witness :
    (chainReply1 1 ∈ [chainRoot 0, chainReply1 1] ∧
     isContinuationB (tweet_by_id [chainRoot 0, chainReply1 1]) "a"
       (chainReply1 1) = true) ∧
    chainReply1 1 ∉ (group_tweets_into_threads [chainRoot 0, chainReply1 1] "a").1 :=
  ⟨⟨by decide, by decide⟩,
    (c2_continuation_criteria [chainRoot 0, chainReply1 1] "a").2.1
      (chainReply1 1) (by decide) (by decide)⟩

/-- C3 counterexample: a reply timestamped before its parent.  The single
reconstructed Thread keeps the seeding parent's identifier and timestamp
("lr", 10) although its earliest member after sorting is the reply
("er", 5) — the Thread's identifier and timestamp do not equal those of its
earliest member. -/
theorem c3_counterexample :
    (group_tweets_into_threads [lateRoot, earlyReply] "a").2.map
        (fun th => (th.id, th.date.naive,
          th.tweets.map (fun t => (t.id, t.date.naive)))) =
      [("lr", (10 : Int), [("er", (5 : Int)), ("lr", (10 : Int))])] ∧
    ¬ (∀ th ∈ (group_tweets_into_threads [lateRoot, earlyReply] "a").2,
        th.tweets.head?.map (fun t => t.id) = some th.id) := by
  exact ⟨by decide, by decide⟩

/-- C3 (amended): for a batch with distinct identifiers (the data model's
uniqueness invariant), the standalone list and the thread members partition
the batch (each input Post appears exactly once overall); every returned
Thread is non-empty and sorted ascending by timestamp; and each Thread's
identifier and timestamp equal those of its seeding parent Post, a member of
the Thread (the timestamp-earliest member only when the parent's timestamp
does not exceed its replies'). -/
theorem c3_partition_and_order (tweets : List Tweet) (target_author : String)
    (H : (tweets.map (fun t => t.id)).Nodup) :
    ((group_tweets_into_threads tweets target_author).1 ++
      flatTweets (group_tweets_into_threads tweets target_author).2).Perm tweets ∧
    ∀ th ∈ (group_tweets_into_threads tweets target_author).2,
      th.tweets ≠ [] ∧ th.tweets.Pairwise dle ∧
      ∃ p ∈ th.tweets, p.id = th.id ∧ p.date = th.date :=
  ⟨group_partition H, group_thread_facts⟩

/-- C3 witness: the partition and ordering facts at a concrete two-post
chain batch. -/
theorem c3_witness :
    (([lateRoot, earlyReply].map (fun t => t.id)).Nodup) ∧
    (((group_tweets_into_threads [lateRoot, earlyReply] "a").1 ++
      flatTweets (group_tweets_into_threads [lateRoot, earlyReply] "a").2).Perm
        [lateRoot, earlyReply] ∧
     ∀ th ∈ (group_tweets_into_threads [lateRoot, earlyReply] "a").2,
       th.tweets ≠ [] ∧ th.tweets.Pairwise dle ∧
       ∃ p ∈ th.tweets, p.id = th.id ∧ p.date = th.date) :=
  ⟨by decide, c3_partition_and_order [lateRoot, earlyReply] "a" (by decide)⟩

/-- C10: on reconstructor output, every Thread's resolved `video_url` is
either `none` or a non-empty string, and `has_video` returns true exactly
when `get_first_video_url` returns a URL — the two video-presence queries
agree. -/
theorem c10_video_queries_agree (tweets : List Tweet) (target_author : String) :
    ∀ th ∈ (group_tweets_into_threads tweets target_author).2,
      (th.video_url = none ∨ ∃ v, th.video_url = some v ∧ v ≠ "") ∧
      (th.has_video = true ↔ th.get_first_video_url.isSome = true) :=
  group_video_facts

/-- C10 witness: the queries agree on the Thread reconstructed from a
concrete two-post chain. -/
theorem c10_witness :
    ({ id := "r", author := "a", date := ⟨0, none⟩,
       tweets := [chainRoot 0, chainReply1 1], video_url := none,
       video_file := none : Thread } ∈
      (group_tweets_into_threads [chainRoot 0, chainReply1 1] "a").2) ∧
    (({ id := "r", author := "a", date := ⟨0, none⟩,
        tweets := [chainRoot 0, chainReply1 1], video_url := none,
        video_file := none : Thread }.video_url = none ∨
      ∃ v, ({ id := "r", author := "a", date := ⟨0, none⟩,
              tweets := [chainRoot 0, chainReply1 1], video_url := none,
              video_file := none : Thread }).video_url = some v ∧ v ≠ "") ∧
     (({ id := "r", author := "a", date := ⟨0, none⟩,
         tweets := [chainRoot 0, chainReply1 1], video_url := none,
         video_file := none : Thread }).has_video = true ↔
       ({ id := "r", author := "a", date := ⟨0, none⟩,
          tweets := [chainRoot 0, chainReply1 1], video_url := none,
          video_file := none : Thread }).get_first_video_url.isSome = true)) :=
  ⟨by decide, c10_video_queries_agree [chainRoot 0, chainReply1 1] "a" _ (by decide)⟩

/-- C1 counterexample: the three-level same-author chain presented in the
order `[reply2, reply1, root]` (the reverse-chronological order a feed API
yields) fragments: reconstruction returns TWO Threads — `[reply1, reply2]`
and `[root]` — instead of one Thread containing all three, because when
`reply1` is processed after `reply2` the root is seeded as a fresh Thread
even though `reply1` already belongs to another one.  (No post is standalone,
so the standalone part of the claim is not what fails.) -/
theorem c1_counterexample :
    (group_tweets_into_threads [chainReply2 2, chainReply1 1, chainRoot 0] "a").2.length
      = 2 ∧
    (group_tweets_into_threads [chainReply2 2, chainReply1 1, chainRoot 0] "a").2.map
      (fun th => th.tweets.map (fun t => t.id)) = [["r1", "r2"], ["r"]] ∧
    (group_tweets_into_threads [chainReply2 2, chainReply1 1, chainRoot 0] "a").1
      = [] := by
  exact ⟨by decide, by decide, by decide⟩

/-- C1 (amended): for a three-level same-author reply chain with ascending
timestamps, reconstruction produces exactly one Thread containing
`[root, reply1, reply2]` in timestamp order and leaves none of the three
standalone, *provided reply1 appears before reply2 in the batch* (any
position of the root); when reply2 precedes reply1 the chain fragments into
two Threads (see the counterexample). -/
theorem c1_chain_collapses_in_order (dR d1 d2 : Int) (h1 : dR ≤ d1) (h2 : d1 ≤ d2) :
    ∀ batch ∈ [[chainRoot dR, chainReply1 d1, chainReply2 d2],
               [chainReply1 d1, chainRoot dR, chainReply2 d2],
               [chainReply1 d1, chainReply2 d2, chainRoot dR]],
      group_tweets_into_threads batch "a" =
        ([], [{ id := "r", author := "a", date := ⟨dR, none⟩,
                tweets := [chainRoot dR, chainReply1 d1, chainReply2 d2],
                video_url := none, video_file := none }]) := by
  intro batch hb
  simp only [List.mem_cons, List.mem_singleton] at hb
  rcases hb with rfl | rfl | rfl | hb
  · simp [group_tweets_into_threads, groupState, groupStep, tweet_by_id,
      appendToFirst, threadMatches, pyTruthy, chainRoot, chainReply1, chainReply2,
      finalizeThread, sortByDate, insertByDate, Thread.get_first_video_url,
      PyDateTime.key, h1, h2]
  · simp [group_tweets_into_threads, groupState, groupStep, tweet_by_id,
      appendToFirst, threadMatches, pyTruthy, chainRoot, chainReply1, chainReply2,
      finalizeThread, sortByDate, insertByDate, Thread.get_first_video_url,
      PyDateTime.key, h1, h2]
  · simp [group_tweets_into_threads, groupState, groupStep, tweet_by_id,
      appendToFirst, threadMatches, pyTruthy, chainRoot, chainReply1, chainReply2,
      finalizeThread, sortByDate, insertByDate, Thread.get_first_video_url,
      PyDateTime.key, h1, h2]
  · simp at hb

/-- C1 witness: the chain batch `[reply1, reply2, root]` (root last, replies
in order) collapses into the single expected Thread. -/
theorem c1_witness :
    ((0 : Int) ≤ 1 ∧ (1 : Int) ≤ 2 ∧
     [chainReply1 1, chainReply2 2, chainRoot 0] ∈
       [[chainRoot 0, chainReply1 1, chainReply2 2],
        [chainReply1 1, chainRoot 0, chainReply2 2],
        [chainReply1 1, chainReply2 2, chainRoot 0]]) ∧
    group_tweets_into_threads [chainReply1 1, chainReply2 2, chainRoot 0] "a" =
      ([], [{ id := "r", author := "a", date := ⟨0, none⟩,
              tweets := [chainRoot 0, chainReply1 1, chainReply2 2],
              video_url := none, video_file := none }]) :=
  ⟨⟨by decide, by decide, by decide⟩,
    c1_chain_collapses_in_order 0 1 2 (by decide) (by decide) _ (by decide)⟩

end TS
